import Mathlib

/-!
Verification of the model-order selection logic (`my_model_selectors.py`) and the
maximum-likelihood recognizer (`my_recognizer.py`) of this repository, as a shallow
embedding in Lean.

Modelling choices, shared by all definitions below:

* Floating point log-likelihood values returned by `model.score` are modelled as exact
  rationals.  In the recognizer, where the comparison against the sentinel
  `float("-inf")` is observable (a model may itself return negative infinity), scores
  live in the type `RScore` with an explicit bottom element `RScore.ninf`; in the
  selectors, where only finite scores are compared against the initial sentinels, scores
  are plain rationals and the running best is an `Option` whose `none` stands for the
  initial sentinel (`float("inf")` for BIC, `float("-inf")` for DIC and CV).
* Python exceptions that the source catches with a bare `except` are modelled by
  `Option`: a raising call returns `none`, and a `do` block over `Option` reproduces the
  abort-to-the-handler control flow of a `try` block.
* The opaque collaborators (the `GaussianHMM` trainer of hmmlearn, its `score` method,
  `math.log`, and the array accessors `len(self.X)` and `len(self.X[0])`) are fields of
  the environment `HmmEnv`.  The trainer is seeded (`random_state=self.random_state`),
  hence a pure function of its data and state count.
* The fold partitions produced by `KFold(n_splits=folds, shuffle=True)` composed with
  `combine_sequences` are an input `splits : List (Data × Data)` of
  (training data, validation data) pairs, one list per candidate state count, because
  `KFold` is constructed afresh inside the loop over state counts.  The shuffle is not
  seeded (no `random_state` argument is passed to `KFold`), so this input is *not* a
  function of the selector configuration; it models the draw from the global
  random-number generator.
-/

/-- Model of a float log-likelihood as stored and compared by `recognize`:
either negative infinity or a finite value. -/
inductive RScore where
  | ninf : RScore
  | fin : ℚ → RScore
deriving DecidableEq

/-- Model of the float strict order `<` restricted to the values handled by
`recognize`: negative infinity is below every finite value and not below itself. -/
def blt : RScore → RScore → Bool
  | RScore.ninf, RScore.ninf => false
  | RScore.ninf, RScore.fin _ => true
  | RScore.fin _, RScore.ninf => false
  | RScore.fin a, RScore.fin b => decide (a < b)

/-- One iteration of the inner loop of `recognize` (`my_recognize` source, lines 36-44):
for one `(word, model)` entry, try `model.score(X_test, lengths_test)`; on failure keep
the accumulator; on success append the score to `word_probabilities` and update the
running maximum and guess when `score > best_score`.  The accumulator is
`(word_probabilities, best_score, guess)`. -/
def scoreStep {ι : Type} (x : ι) (acc : List (String × RScore) × RScore × Option String)
    (p : String × (ι → Option RScore)) : List (String × RScore) × RScore × Option String :=
  match p.2 x with
  | none => acc
  | some s =>
      if blt acc.2.1 s then (acc.1 ++ [(p.1, s)], s, some p.1)
      else (acc.1 ++ [(p.1, s)], acc.2.1, acc.2.2)

/-- The body of the outer loop of `recognize` for one test item: scan all models in the
iteration order of the `models` dict, starting from an empty score map,
`best_score = float("-inf")` and `guess = None`; return the accumulated score map and
the final guess. -/
def scoreItem {ι : Type} (models : List (String × (ι → Option RScore))) (x : ι) :
    List (String × RScore) × Option String :=
  let r := models.foldl (scoreStep x) ([], RScore.ninf, none)
  (r.1, r.2.2)

/-- Embedding of `recognize(models, test_set)`: iterate over the test sequences in
iteration order, appending each item's score map to `probabilities` and its guess to
`guesses`. -/
def recognize {ι : Type} (models : List (String × (ι → Option RScore))) (items : List ι) :
    List (List (String × RScore)) × List (Option String) :=
  items.foldl
    (fun acc x => (acc.1 ++ [(scoreItem models x).1], acc.2 ++ [(scoreItem models x).2]))
    ([], [])

/-- The successful scores of one test item, in model-map iteration order: the score map
that `scoreItem` accumulates. -/
def succList {ι : Type} (models : List (String × (ι → Option RScore))) (x : ι) :
    List (String × RScore) :=
  models.filterMap (fun p => (p.2 x).map (fun s => (p.1, s)))

/-- One step of the running-maximum scan of `recognize`, on the successful scores only:
update `(best_score, guess)` when the new score is strictly greater. -/
def pickStep (acc : RScore × Option String) (ws : String × RScore) : RScore × Option String :=
  if blt acc.1 ws.2 then (ws.2, some ws.1) else acc

/-- The running-maximum scan of `recognize` over a list of successful scores. -/
def pickGo (l : List (String × RScore)) (acc : RScore × Option String) : RScore × Option String :=
  l.foldl pickStep acc

/-- The opaque collaborators of the selectors.  `train d n` is
`GaussianHMM(n_components=n, covariance_type="diag", n_iter=1000, random_state=self.random_state).fit(d)`
(returning `none` when fitting raises), `scoreM m d` is `m.score(d)` (returning `none`
when scoring raises), `rows d` is `len(X)` and `dim d` is `len(X[0])` for the
concatenated array of `d`, and `log` is `math.log` on positive integers. -/
structure HmmEnv (M Data : Type) where
  train : Data → ℕ → Option M
  scoreM : M → Data → Option ℚ
  rows : Data → ℕ
  dim : Data → ℕ
  log : ℕ → ℚ

/-- The per-word state a `ModelSelector` is constructed with (`__init__`, lines 16-29):
`X` is `(self.X, self.lengths)`, `hwords` is `self.hwords` in dict iteration order,
`thisWord` is `self.this_word`, `numSeqs` is `len(self.sequences)`, and
`minN`, `maxN` are `self.min_n_components`, `self.max_n_components`. -/
structure SelectorInput (Data : Type) where
  X : Data
  hwords : List (String × Data)
  thisWord : String
  numSeqs : ℕ
  minN : ℕ
  maxN : ℕ

/-- The candidate state counts `range(self.min_n_components, self.max_n_components + 1)`. -/
def nRange {Data : Type} (inp : SelectorInput Data) : List ℕ :=
  List.range' inp.minN (inp.maxN + 1 - inp.minN)

/-- One step of a best-so-far scan where *lower* is better and the initial best is the
sentinel `float("inf")`, modelled by `none` (used by `SelectorBIC`, lines 75-89:
`if bic_score < best_score`). -/
def selStepMin (cand : ℕ → Option ℚ) (acc : Option ℚ × ℕ) (n : ℕ) : Option ℚ × ℕ :=
  match cand n with
  | none => acc
  | some s =>
      match acc.1 with
      | none => (some s, n)
      | some b => if s < b then (some s, n) else acc

/-- One step of a best-so-far scan where *higher* is better and the initial best is the
sentinel `float("-inf")`, modelled by `none` (used by `SelectorDIC` and `SelectorCV`:
`if dic_score > best_score`, `if ave_score > best_score`). -/
def selStepMax (cand : ℕ → Option ℚ) (acc : Option ℚ × ℕ) (n : ℕ) : Option ℚ × ℕ :=
  match cand n with
  | none => acc
  | some s =>
      match acc.1 with
      | none => (some s, n)
      | some b => if b < s then (some s, n) else acc

/-- Scan of the candidate state counts keeping the lowest defined candidate score,
starting from `(float("inf"), best_n_components = 0)`. -/
def selFoldMin (cand : ℕ → Option ℚ) (ns : List ℕ) : Option ℚ × ℕ :=
  ns.foldl (selStepMin cand) (none, 0)

/-- Scan of the candidate state counts keeping the highest defined candidate score,
starting from `(float("-inf"), best_n_components = 0)`. -/
def selFoldMax (cand : ℕ → Option ℚ) (ns : List ℕ) : Option ℚ × ℕ :=
  ns.foldl (selStepMax cand) (none, 0)

/-- The `try` block of one iteration of `SelectorBIC.select` (lines 81-91): train with
`n` states on the full data, score on the same data, and compute
`-2 * logl + parameters * math.log(len(self.X))` with
`parameters = n ** 2 + (2 * n * len(self.X[0]) - 1)`.  `math.log` raises on `0`
(`len(self.X) == 0`), which the bare `except` catches, hence the guard. -/
def bicCandidate {M Data : Type} (env : HmmEnv M Data) (inp : SelectorInput Data) (n : ℕ) :
    Option ℚ := do
  let m ← env.train inp.X n
  let logl ← env.scoreM m inp.X
  if env.rows inp.X = 0 then none
  else
    let p : ℤ := (n : ℤ) ^ 2 + (2 * (n : ℤ) * (env.dim inp.X : ℤ) - 1)
    some (-2 * logl + (p : ℚ) * env.log (env.rows inp.X))

/-- The winning `best_n_components` of `SelectorBIC.select`. -/
def selectBICN {M Data : Type} (env : HmmEnv M Data) (inp : SelectorInput Data) : ℕ :=
  (selFoldMin (bicCandidate env inp) (nRange inp)).2

/-- Embedding of `SelectorBIC.select` (lines 68-93): scan the range, then
`return self.base_model(best_n_components)`. -/
def selectBIC {M Data : Type} (env : HmmEnv M Data) (inp : SelectorInput Data) : Option M :=
  env.train inp.X (selectBICN env inp)

/-- The words other than `self.this_word`, as filtered by the inner loop of
`SelectorDIC.select` (lines 119-122: `for word in self.hwords: if word != self.this_word`). -/
def dicOthers {Data : Type} (inp : SelectorInput Data) : List (String × Data) :=
  inp.hwords.filter (fun p => p.1 ≠ inp.thisWord)

/-- The accumulation of `anti_logl` in `SelectorDIC.select`: sum of `model.score` over
every other word's concatenated data, aborting (to the bare `except`) on the first
scoring failure. -/
def dicAnti {M Data : Type} (env : HmmEnv M Data) (inp : SelectorInput Data) (m : M) :
    Option ℚ :=
  (dicOthers inp).foldlM (fun acc p => do
    let s ← env.scoreM m p.2
    pure (acc + s)) (0 : ℚ)

/-- The `try` block of one iteration of `SelectorDIC.select` (lines 113-129): train,
score on the own data, accumulate `anti_logl`, and compute
`logl - anti_logl / (len(self.hwords) - 1)`; the division raises `ZeroDivisionError`
when the corpus has exactly one word, which the bare `except` catches. -/
def dicCandidate {M Data : Type} (env : HmmEnv M Data) (inp : SelectorInput Data) (n : ℕ) :
    Option ℚ := do
  let m ← env.train inp.X n
  let logl ← env.scoreM m inp.X
  let anti ← dicAnti env inp m
  if (inp.hwords.length : ℤ) - 1 = 0 then none
  else some (logl - anti / ((inp.hwords.length : ℚ) - 1))

/-- The winning `best_n_components` of `SelectorDIC.select`. -/
def selectDICN {M Data : Type} (env : HmmEnv M Data) (inp : SelectorInput Data) : ℕ :=
  (selFoldMax (dicCandidate env inp) (nRange inp)).2

/-- Embedding of `SelectorDIC.select` (lines 105-131): scan the range, then
`return self.base_model(best_n_components)`. -/
def selectDIC {M Data : Type} (env : HmmEnv M Data) (inp : SelectorInput Data) : Option M :=
  env.train inp.X (selectDICN env inp)

/-- The `try` block of one iteration of `SelectorCV.select` (lines 152-172) with
`folds = min(3, len(self.sequences))`: when `folds < 2`, train on the full data and
score on the same data; otherwise train on each fold's training data, sum the scores on
the validation data, and average over `folds`.  A `none` models an exception reaching
the bare `except`, which aborts the remaining folds of this state count. -/
def cvTry {M Data : Type} (env : HmmEnv M Data) (inp : SelectorInput Data)
    (splits : List (Data × Data)) (n : ℕ) : Option ℚ :=
  if min 3 inp.numSeqs < 2 then do
    let m ← env.train inp.X n
    env.scoreM m inp.X
  else do
    let total ← splits.foldlM (fun acc td => do
      let m ← env.train td.1 n
      let s ← env.scoreM m td.2
      pure (acc + s)) (0 : ℚ)
    pure (total / ((min 3 inp.numSeqs : ℕ) : ℚ))

/-- The value of `ave_score` after the `try` block of `SelectorCV.select` for one state
count: `ave_score` is initialised to `0` before the `try` (line 150), so an exception
anywhere in the block leaves it at `0`. -/
def cvCandidate {M Data : Type} (env : HmmEnv M Data) (inp : SelectorInput Data)
    (splits : List (Data × Data)) (n : ℕ) : ℚ :=
  (cvTry env inp splits n).getD 0

/-- The winning `best_n_components` of `SelectorCV.select`.  `sf n` is the list of fold
(training data, validation data) pairs drawn for state count `n`; see the module
comment on the unseeded `KFold` shuffle. -/
def selectCVN {M Data : Type} (env : HmmEnv M Data) (inp : SelectorInput Data)
    (sf : ℕ → List (Data × Data)) : ℕ :=
  (selFoldMax (fun n => some (cvCandidate env inp (sf n) n)) (nRange inp)).2

/-- Embedding of `SelectorCV.select` (lines 138-177): scan the range, then
`return self.base_model(best_n_components)`. -/
def selectCV {M Data : Type} (env : HmmEnv M Data) (inp : SelectorInput Data)
    (sf : ℕ → List (Data × Data)) : Option M :=
  env.train inp.X (selectCVN env inp sf)

/-! Concrete instances used by the witnesses and counterexamples below. -/

/-- Environment for the BIC witness: training and scoring always succeed. -/
def envW1 : HmmEnv Unit Unit :=
  { train := fun _ _ => some (), scoreM := fun _ _ => some 37,
    rows := fun _ => 5, dim := fun _ => 2, log := fun _ => 1 }

/-- Input for the BIC witness. -/
def inpW1 : SelectorInput Unit :=
  { X := (), hwords := [("W", ())], thisWord := "W", numSeqs := 3, minN := 2, maxN := 3 }

/-- Environment for the CV fold-failure counterexample: training fails for 3 states on
every fold's training data (tags 1, 3, 5) and for 4 states on the second fold's
training data (tag 3); every score is -9. -/
def envC2 : HmmEnv ℕ ℕ :=
  { train := fun d n => if (n = 3 ∧ d ≠ 0) ∨ (n = 4 ∧ d = 3) then none else some n,
    scoreM := fun _ _ => some (-9), rows := fun _ => 15, dim := fun _ => 2,
    log := fun _ => 1 }

/-- Input for the CV fold-failure counterexample: 3 sequences, so 3 folds, and the
range of state counts 2..4.  The full concatenated data carries tag 0. -/
def inpC2 : SelectorInput ℕ :=
  { X := 0, hwords := [("W", 0)], thisWord := "W", numSeqs := 3, minN := 2, maxN := 4 }

/-- Fold partition for the CV fold-failure counterexample: training data tags 1, 3, 5,
validation data tags 2, 4, 6, the same for every state count. -/
def sfC2 : ℕ → List (ℕ × ℕ) := fun _ => [(1, 2), (3, 4), (5, 6)]

/-- Environment for the witness of the amended CV failure claim: training fails for 2
states on every fold's training data; every score is -9. -/
def envW2 : HmmEnv ℕ ℕ :=
  { train := fun _ n => if n = 2 then none else some n,
    scoreM := fun _ _ => some (-9), rows := fun _ => 15, dim := fun _ => 2,
    log := fun _ => 1 }

/-- Input for the witness of the amended CV failure claim. -/
def inpW2 : SelectorInput ℕ :=
  { X := 0, hwords := [("W", 0)], thisWord := "W", numSeqs := 3, minN := 2, maxN := 3 }

/-- Fold partition for the witness of the amended CV failure claim. -/
def sfW2 : ℕ → List (ℕ × ℕ) := fun _ => [(1, 2), (3, 4), (5, 6)]

/-- Model map for the recognizer shape witness. -/
def modelsW3 : List (String × (Unit → Option RScore)) :=
  [("A", fun _ => some (RScore.fin 1))]

/-- Test items for the recognizer shape witness. -/
def itemsW3 : List Unit := [(), ()]

/-- Environment for the DIC witness: scoring gives 10 on the own data (tag 0) and 4 on
the other word's data (tag 1). -/
def envW4 : HmmEnv Unit ℕ :=
  { train := fun _ _ => some (), scoreM := fun _ d => some (if d = 0 then 10 else 4),
    rows := fun _ => 5, dim := fun _ => 2, log := fun _ => 1 }

/-- Input for the DIC witness: a two-word corpus. -/
def inpW4 : SelectorInput ℕ :=
  { X := 0, hwords := [("W", 0), ("V", 1)], thisWord := "W", numSeqs := 3, minN := 2,
    maxN := 3 }

/-- Environment for the single-category DIC witness; the trainer honours the contract
that fitting 0 states fails. -/
def envW5 : HmmEnv Unit Unit :=
  { train := fun _ n => if n = 0 then none else some (), scoreM := fun _ _ => some 3,
    rows := fun _ => 4, dim := fun _ => 1, log := fun _ => 1 }

/-- Input for the single-category DIC witness: a one-word corpus. -/
def inpW5 : SelectorInput Unit :=
  { X := (), hwords := [("W", ())], thisWord := "W", numSeqs := 2, minN := 2, maxN := 3 }

/-- Environment for the single-sequence CV witness: the fitted model is the state
count, every score is 7. -/
def envW6 : HmmEnv ℕ ℕ :=
  { train := fun _ n => some n, scoreM := fun _ _ => some 7, rows := fun _ => 4,
    dim := fun _ => 1, log := fun _ => 1 }

/-- Input for the single-sequence CV witness: one sequence, so no fold split. -/
def inpW6 : SelectorInput ℕ :=
  { X := 0, hwords := [("W", 0)], thisWord := "W", numSeqs := 1, minN := 2, maxN := 3 }

/-- Fold partition function for the single-sequence CV witness (never consulted). -/
def sfW6 : ℕ → List (ℕ × ℕ) := fun _ => []

/-- Model map for the recognizer argmax counterexample: the single category scores
every item successfully, with score negative infinity. -/
def modelsC7 : List (String × (Unit → Option RScore)) :=
  [("A", fun _ => some RScore.ninf)]

/-- Model map for the witness of the amended recognizer claim: the first category
fails to score, the second scores 1. -/
def modelsW7 : List (String × (Unit → Option RScore)) :=
  [("A", fun _ => none), ("B", fun _ => some (RScore.fin 1))]

/-- Environment for the CV partition-dependence counterexample: training always
succeeds and the fitted model is the state count; scores depend on the validation-data
tag so that tags 1-3 favour 2 states and tags 4-6 favour 3 states. -/
def envC8 : HmmEnv ℕ ℕ :=
  { train := fun _ n => some n,
    scoreM := fun m d =>
      some (if d ≤ 3 then (if m = 2 then 5 else 1) else (if m = 2 then 1 else 5)),
    rows := fun _ => 15, dim := fun _ => 2, log := fun _ => 1 }

/-- Input for the CV partition-dependence counterexample. -/
def inpC8 : SelectorInput ℕ :=
  { X := 0, hwords := [("W", 0)], thisWord := "W", numSeqs := 3, minN := 2, maxN := 3 }

/-- First draw of the unseeded fold shuffle: validation tags 1, 2, 3. -/
def sfC8A : ℕ → List (ℕ × ℕ) := fun _ => [(0, 1), (0, 2), (0, 3)]

/-- Second draw of the unseeded fold shuffle: validation tags 4, 5, 6. -/
def sfC8B : ℕ → List (ℕ × ℕ) := fun _ => [(0, 4), (0, 5), (0, 6)]

/-- Fold partition for the fixed-partition determinism witness. -/
def sfW8 : ℕ → List (ℕ × ℕ) := fun _ => [(0, 1)]

/-- Extensionally equal (on the scanned range) fold partition for the determinism
witness, syntactically different from `sfW8`. -/
def sfW8' : ℕ → List (ℕ × ℕ) := fun n => if n ≤ 5 then [(0, 1)] else []

/-- Environment for the CV scoring-failure counterexample: training succeeds for every
positive state count (and honours the contract that fitting 0 states fails), while
scoring always raises. -/
def envC9 : HmmEnv ℕ ℕ :=
  { train := fun _ n => if n = 0 then none else some n, scoreM := fun _ _ => none,
    rows := fun _ => 15, dim := fun _ => 2, log := fun _ => 1 }

/-- Input for the CV scoring-failure counterexample. -/
def inpC9 : SelectorInput ℕ :=
  { X := 0, hwords := [("W", 0)], thisWord := "W", numSeqs := 3, minN := 2, maxN := 3 }

/-- Fold partition for the CV scoring-failure counterexample. -/
def sfC9 : ℕ → List (ℕ × ℕ) := fun _ => [(1, 2), (3, 4), (5, 6)]

/-- Environment for the no-viable-model witness: training always fails. -/
def envW9 : HmmEnv Unit Unit :=
  { train := fun _ _ => none, scoreM := fun _ _ => some 1, rows := fun _ => 3,
    dim := fun _ => 1, log := fun _ => 1 }

/-- Input for the no-viable-model witness. -/
def inpW9 : SelectorInput Unit :=
  { X := (), hwords := [("W", ())], thisWord := "W", numSeqs := 3, minN := 2, maxN := 3 }

/-- Model map for the negative-infinity sentinel witness. -/
def modelsW10 : List (String × (Unit → Option RScore)) :=
  [("A", fun _ => some (RScore.fin 1)), ("B", fun _ => some RScore.ninf)]

/-! Helper lemmas about the float order model `blt`. -/

lemma blt_irrefl (a : RScore) : blt a a = false := by
  cases a <;> simp [blt]

lemma blt_asymm {a b : RScore} (h : blt a b = true) : blt b a = false := by
  cases a <;> cases b <;> simp [blt] at * <;> linarith

lemma blt_le_trans {a b c : RScore} (h1 : blt a b = false) (h2 : blt a c = true) :
    blt b c = true := by
  cases a <;> cases b <;> cases c <;> simp [blt] at * <;> linarith

lemma blt_lt_trans {a b c : RScore} (h1 : blt a b = true) (h2 : blt b c = true) :
    blt a c = true := by
  cases a <;> cases b <;> cases c <;> simp [blt] at * <;> linarith

lemma blt_ninf_iff {s : RScore} : blt RScore.ninf s = true ↔ s ≠ RScore.ninf := by
  cases s <;> simp [blt]

/-! Helper lemmas about the scanned range of state counts. -/

lemma range'_pairwise (s k : ℕ) : (List.range' s k).Pairwise (· < ·) := by
  induction k generalizing s with
  | zero => simp
  | succ k ih =>
      rw [List.range'_succ]
      exact List.Pairwise.cons (fun m hm => by have := List.mem_range'_1.mp hm; omega)
        (ih (s + 1))

lemma nRange_pairwise {Data : Type} (inp : SelectorInput Data) :
    (nRange inp).Pairwise (· < ·) :=
  range'_pairwise inp.minN (inp.maxN + 1 - inp.minN)

/-! Characterization of the best-so-far scans of the selectors. -/

lemma selFoldMin_spec (cand : ℕ → Option ℚ) (ns : List ℕ) (hns : ns.Pairwise (· < ·)) :
    (selFoldMin cand ns = (none, 0) ∧ ∀ n ∈ ns, cand n = none) ∨
    (∃ sb nb, selFoldMin cand ns = (some sb, nb) ∧ nb ∈ ns ∧ cand nb = some sb ∧
      ∀ n ∈ ns, ∀ t, cand n = some t → sb ≤ t ∧ (sb = t → nb ≤ n)) := by
  induction ns using List.reverseRecOn with
  | nil => exact Or.inl ⟨rfl, by simp⟩
  | append_singleton l a ih =>
      have hl : l.Pairwise (· < ·) := (List.pairwise_append.mp hns).1
      have hlt : ∀ x ∈ l, x < a := by
        have h3 := (List.pairwise_append.mp hns).2.2
        intro x hx
        exact h3 x hx a (by simp)
      have hfold : selFoldMin cand (l ++ [a]) = selStepMin cand (selFoldMin cand l) a := by
        simp [selFoldMin, List.foldl_append]
      rcases ih hl with ⟨heq, hall⟩ | ⟨sb, nb, heq, hnb, hcnb, hmin⟩
      · cases hc : cand a with
        | none =>
            left
            refine ⟨by rw [hfold, heq]; simp [selStepMin, hc], ?_⟩
            intro n hn
            rcases List.mem_append.mp hn with h | h
            · exact hall n h
            · obtain rfl := List.mem_singleton.mp h; exact hc
        | some s =>
            right
            refine ⟨s, a, by rw [hfold, heq]; simp [selStepMin, hc], by simp, hc, ?_⟩
            intro n hn t ht
            rcases List.mem_append.mp hn with h | h
            · rw [hall n h] at ht; cases ht
            · obtain rfl := List.mem_singleton.mp h
              rw [hc] at ht; injection ht with h2; subst h2
              exact ⟨le_refl s, fun _ => le_refl _⟩
      · cases hc : cand a with
        | none =>
            right
            refine ⟨sb, nb, by rw [hfold, heq]; simp [selStepMin, hc],
              List.mem_append_left _ hnb, hcnb, ?_⟩
            intro n hn t ht
            rcases List.mem_append.mp hn with h | h
            · exact hmin n h t ht
            · obtain rfl := List.mem_singleton.mp h; rw [hc] at ht; cases ht
        | some s =>
            by_cases hlt2 : s < sb
            · right
              refine ⟨s, a, by rw [hfold, heq]; simp [selStepMin, hc, hlt2],
                List.mem_append_right _ (by simp), hc, ?_⟩
              intro n hn t ht
              rcases List.mem_append.mp hn with h | h
              · have hm := hmin n h t ht
                exact ⟨by linarith [hm.1], fun he => absurd (he ▸ hm.1) (by linarith)⟩
              · obtain rfl := List.mem_singleton.mp h
                rw [hc] at ht; injection ht with h2; subst h2
                exact ⟨le_refl s, fun _ => le_refl _⟩
            · right
              refine ⟨sb, nb, by rw [hfold, heq]; simp [selStepMin, hc, hlt2],
                List.mem_append_left _ hnb, hcnb, ?_⟩
              intro n hn t ht
              rcases List.mem_append.mp hn with h | h
              · exact hmin n h t ht
              · obtain rfl := List.mem_singleton.mp h
                rw [hc] at ht; injection ht with h2; subst h2
                exact ⟨not_lt.mp hlt2, fun _ => le_of_lt (hlt nb hnb)⟩

lemma selFoldMax_spec (cand : ℕ → Option ℚ) (ns : List ℕ) (hns : ns.Pairwise (· < ·)) :
    (selFoldMax cand ns = (none, 0) ∧ ∀ n ∈ ns, cand n = none) ∨
    (∃ sb nb, selFoldMax cand ns = (some sb, nb) ∧ nb ∈ ns ∧ cand nb = some sb ∧
      ∀ n ∈ ns, ∀ t, cand n = some t → t ≤ sb ∧ (t = sb → nb ≤ n)) := by
  induction ns using List.reverseRecOn with
  | nil => exact Or.inl ⟨rfl, by simp⟩
  | append_singleton l a ih =>
      have hl : l.Pairwise (· < ·) := (List.pairwise_append.mp hns).1
      have hlt : ∀ x ∈ l, x < a := by
        have h3 := (List.pairwise_append.mp hns).2.2
        intro x hx
        exact h3 x hx a (by simp)
      have hfold : selFoldMax cand (l ++ [a]) = selStepMax cand (selFoldMax cand l) a := by
        simp [selFoldMax, List.foldl_append]
      rcases ih hl with ⟨heq, hall⟩ | ⟨sb, nb, heq, hnb, hcnb, hmax⟩
      · cases hc : cand a with
        | none =>
            left
            refine ⟨by rw [hfold, heq]; simp [selStepMax, hc], ?_⟩
            intro n hn
            rcases List.mem_append.mp hn with h | h
            · exact hall n h
            · obtain rfl := List.mem_singleton.mp h; exact hc
        | some s =>
            right
            refine ⟨s, a, by rw [hfold, heq]; simp [selStepMax, hc], by simp, hc, ?_⟩
            intro n hn t ht
            rcases List.mem_append.mp hn with h | h
            · rw [hall n h] at ht; cases ht
            · obtain rfl := List.mem_singleton.mp h
              rw [hc] at ht; injection ht with h2; subst h2
              exact ⟨le_refl s, fun _ => le_refl _⟩
      · cases hc : cand a with
        | none =>
            right
            refine ⟨sb, nb, by rw [hfold, heq]; simp [selStepMax, hc],
              List.mem_append_left _ hnb, hcnb, ?_⟩
            intro n hn t ht
            rcases List.mem_append.mp hn with h | h
            · exact hmax n h t ht
            · obtain rfl := List.mem_singleton.mp h; rw [hc] at ht; cases ht
        | some s =>
            by_cases hlt2 : sb < s
            · right
              refine ⟨s, a, by rw [hfold, heq]; simp [selStepMax, hc, hlt2],
                List.mem_append_right _ (by simp), hc, ?_⟩
              intro n hn t ht
              rcases List.mem_append.mp hn with h | h
              · have hm := hmax n h t ht
                exact ⟨by linarith [hm.1], fun he => absurd (he ▸ hm.1) (by linarith)⟩
              · obtain rfl := List.mem_singleton.mp h
                rw [hc] at ht; injection ht with h2; subst h2
                exact ⟨le_refl s, fun _ => le_refl _⟩
            · right
              refine ⟨sb, nb, by rw [hfold, heq]; simp [selStepMax, hc, hlt2],
                List.mem_append_left _ hnb, hcnb, ?_⟩
              intro n hn t ht
              rcases List.mem_append.mp hn with h | h
              · exact hmax n h t ht
              · obtain rfl := List.mem_singleton.mp h
                rw [hc] at ht; injection ht with h2; subst h2
                exact ⟨not_lt.mp hlt2, fun _ => le_of_lt (hlt nb hnb)⟩

lemma foldl_selStepMin_of_none (cand : ℕ → Option ℚ) :
    ∀ (ns : List ℕ) (acc : Option ℚ × ℕ), (∀ n ∈ ns, cand n = none) →
      ns.foldl (selStepMin cand) acc = acc := by
  intro ns
  induction ns with
  | nil => intro acc _; rfl
  | cons a l ih =>
      intro acc h
      simp only [List.foldl_cons]
      rw [show selStepMin cand acc a = acc by simp [selStepMin, h a (by simp)]]
      exact ih acc (fun n hn => h n (by simp [hn]))

lemma foldl_selStepMax_of_none (cand : ℕ → Option ℚ) :
    ∀ (ns : List ℕ) (acc : Option ℚ × ℕ), (∀ n ∈ ns, cand n = none) →
      ns.foldl (selStepMax cand) acc = acc := by
  intro ns
  induction ns with
  | nil => intro acc _; rfl
  | cons a l ih =>
      intro acc h
      simp only [List.foldl_cons]
      rw [show selStepMax cand acc a = acc by simp [selStepMax, h a (by simp)]]
      exact ih acc (fun n hn => h n (by simp [hn]))

lemma foldl_selStepMax_congr (cand cand' : ℕ → Option ℚ) :
    ∀ (ns : List ℕ) (acc : Option ℚ × ℕ), (∀ n ∈ ns, cand n = cand' n) →
      ns.foldl (selStepMax cand) acc = ns.foldl (selStepMax cand') acc := by
  intro ns
  induction ns with
  | nil => intro acc _; rfl
  | cons a l ih =>
      intro acc h
      simp only [List.foldl_cons]
      rw [show selStepMax cand acc a = selStepMax cand' acc a by
        simp [selStepMax, h a (by simp)]]
      exact ih _ (fun n hn => h n (by simp [hn]))

/-! Characterization of the running-maximum scan of the recognizer. -/

lemma pickGo_some_ne_none (l : List (String × RScore)) :
    ∀ (b : RScore) (w : String), (pickGo l (b, some w)).2 ≠ none := by
  induction l with
  | nil => intro b w; simp [pickGo]
  | cons ws l ih =>
      intro b w
      show (pickGo l (pickStep (b, some w) ws)).2 ≠ none
      by_cases h : blt b ws.2 = true
      · rw [show pickStep (b, some w) ws = (ws.2, some ws.1) from by simp [pickStep, h]]
        exact ih _ _
      · rw [show pickStep (b, some w) ws = (b, some w) from by simp [pickStep, h]]
        exact ih _ _

lemma pickGo_none_iff (l : List (String × RScore)) :
    (pickGo l (RScore.ninf, none)).2 = none ↔ ∀ ws ∈ l, ws.2 = RScore.ninf := by
  induction l with
  | nil => simp [pickGo]
  | cons ws l ih =>
      obtain ⟨w0, s0⟩ := ws
      cases s0 with
      | ninf =>
          have hgo : pickGo ((w0, RScore.ninf) :: l) (RScore.ninf, none) =
              pickGo l (RScore.ninf, none) := by
            show pickGo l (pickStep (RScore.ninf, none) (w0, RScore.ninf)) = _
            simp [pickStep, blt]
          rw [hgo]
          constructor
          · intro h ws' hws'
            rcases List.mem_cons.mp hws' with rfl | hm
            · rfl
            · exact ih.mp h ws' hm
          · intro h
            exact ih.mpr (fun ws' hm => h ws' (List.mem_cons_of_mem _ hm))
      | fin q =>
          have hgo : pickGo ((w0, RScore.fin q) :: l) (RScore.ninf, none) =
              pickGo l (RScore.fin q, some w0) := by
            show pickGo l (pickStep (RScore.ninf, none) (w0, RScore.fin q)) = _
            simp [pickStep, blt]
          rw [hgo]
          constructor
          · intro h
            exact absurd h (pickGo_some_ne_none l _ _)
          · intro h
            exfalso
            have := h (w0, RScore.fin q) (by simp)
            cases this

lemma pickGo_spec (l : List (String × RScore)) : ∀ (b : RScore) (g : Option String),
    (pickGo l (b, g) = (b, g) ∧ ∀ ws ∈ l, blt b ws.2 = false) ∨
    (∃ pre w s post, l = pre ++ (w, s) :: post ∧ pickGo l (b, g) = (s, some w) ∧
      blt b s = true ∧ (∀ ws ∈ pre, blt ws.2 s = true) ∧
      (∀ ws ∈ post, blt s ws.2 = false)) := by
  induction l with
  | nil => intro b g; exact Or.inl ⟨rfl, by simp⟩
  | cons ws0 l ih =>
      intro b g
      obtain ⟨w0, s0⟩ := ws0
      by_cases hb : blt b s0 = true
      · have hgo : pickGo ((w0, s0) :: l) (b, g) = pickGo l (s0, some w0) := by
          show pickGo l (pickStep (b, g) (w0, s0)) = _
          simp [pickStep, hb]
        rcases ih s0 (some w0) with ⟨heq, hall⟩ | ⟨pre, w, s, post, hl, heq, hbs, hpre, hpost⟩
        · right
          exact ⟨[], w0, s0, l, by simp, by rw [hgo, heq], hb, by simp, hall⟩
        · right
          refine ⟨(w0, s0) :: pre, w, s, post, by rw [hl, List.cons_append], by rw [hgo, heq],
            blt_lt_trans hb hbs, ?_, hpost⟩
          intro ws hws
          rcases List.mem_cons.mp hws with rfl | hm
          · exact hbs
          · exact hpre ws hm
      · have hb' : blt b s0 = false := by simpa using hb
        have hgo : pickGo ((w0, s0) :: l) (b, g) = pickGo l (b, g) := by
          show pickGo l (pickStep (b, g) (w0, s0)) = _
          simp [pickStep, hb]
        rcases ih b g with ⟨heq, hall⟩ | ⟨pre, w, s, post, hl, heq, hbs, hpre, hpost⟩
        · left
          refine ⟨by rw [hgo, heq], ?_⟩
          intro ws hws
          rcases List.mem_cons.mp hws with rfl | hm
          · exact hb'
          · exact hall ws hm
        · right
          refine ⟨(w0, s0) :: pre, w, s, post, by rw [hl, List.cons_append], by rw [hgo, heq], hbs, ?_, hpost⟩
          intro ws hws
          rcases List.mem_cons.mp hws with rfl | hm
          · exact blt_le_trans hb' hbs
          · exact hpre ws hm

lemma pickGo_guess_mem (l : List (String × RScore)) :
    ∀ (b : RScore) (g : Option String),
      (pickGo l (b, g)).2 = g ∨ ∃ ws ∈ l, (pickGo l (b, g)).2 = some ws.1 := by
  induction l with
  | nil => intro b g; left; rfl
  | cons ws l ih =>
      intro b g
      by_cases hb : blt b ws.2 = true
      · have hgo : pickGo (ws :: l) (b, g) = pickGo l (ws.2, some ws.1) := by
          show pickGo l (pickStep (b, g) ws) = _
          simp [pickStep, hb]
        rcases ih ws.2 (some ws.1) with h | ⟨ws', hm, h⟩
        · right; exact ⟨ws, by simp, by rw [hgo]; exact h⟩
        · right; exact ⟨ws', by simp [hm], by rw [hgo]; exact h⟩
      · have hgo : pickGo (ws :: l) (b, g) = pickGo l (b, g) := by
          show pickGo l (pickStep (b, g) ws) = _
          simp [pickStep, hb]
        rcases ih b g with h | ⟨ws', hm, h⟩
        · left; rw [hgo]; exact h
        · right; exact ⟨ws', by simp [hm], by rw [hgo]; exact h⟩

/-! Lemmas relating the score map of one test item to the model map. -/

lemma succList_mem {ι : Type} (models : List (String × (ι → Option RScore))) (x : ι)
    (w : String) (s : RScore) :
    (w, s) ∈ succList models x ↔ ∃ f, (w, f) ∈ models ∧ f x = some s := by
  constructor
  · intro h
    obtain ⟨p, hp, hps⟩ := List.mem_filterMap.mp h
    obtain ⟨s', hs', heq⟩ := Option.map_eq_some'.mp hps
    have h1 : p.1 = w := congrArg Prod.fst heq
    have h2 : s' = s := congrArg Prod.snd heq
    subst h2
    exact ⟨p.2, by rw [← h1]; simpa using hp, hs'⟩
  · rintro ⟨f, hm, hfx⟩
    exact List.mem_filterMap.mpr ⟨(w, f), hm, by simp [hfx]⟩

lemma succList_names_sublist {ι : Type} (models : List (String × (ι → Option RScore)))
    (x : ι) : ((succList models x).map Prod.fst).Sublist (models.map Prod.fst) := by
  induction models with
  | nil => simp [succList]
  | cons p ms ih =>
      cases hp : p.2 x with
      | none =>
          rw [show succList (p :: ms) x = succList ms x from by simp [succList, hp]]
          simp only [List.map_cons]
          exact ih.trans (List.sublist_cons_self _ _)
      | some s =>
          rw [show succList (p :: ms) x = (p.1, s) :: succList ms x from by
            simp [succList, hp]]
          simp only [List.map_cons]
          exact ih.cons₂ p.1

lemma scoreItem_go {ι : Type} (x : ι) :
    ∀ (models : List (String × (ι → Option RScore))) (P : List (String × RScore))
      (b : RScore) (g : Option String),
      models.foldl (scoreStep x) (P, b, g) =
        (P ++ succList models x, pickGo (succList models x) (b, g)) := by
  intro models
  induction models with
  | nil => intro P b g; simp [succList, pickGo]
  | cons p ms ih =>
      intro P b g
      cases hp : p.2 x with
      | none =>
          have h1 : scoreStep x (P, b, g) p = (P, b, g) := by simp [scoreStep, hp]
          have h2 : succList (p :: ms) x = succList ms x := by simp [succList, hp]
          simp only [List.foldl_cons, h1, h2]
          exact ih P b g
      | some s =>
          have h2 : succList (p :: ms) x = (p.1, s) :: succList ms x := by
            simp [succList, hp]
          have h4 : ∀ acc, pickGo ((p.1, s) :: succList ms x) acc =
              pickGo (succList ms x) (pickStep acc (p.1, s)) := fun _ => rfl
          by_cases hb : blt b s = true
          · have h1 : scoreStep x (P, b, g) p = (P ++ [(p.1, s)], s, some p.1) := by
              simp [scoreStep, hp, hb]
            have h3 : pickStep (b, g) (p.1, s) = (s, some p.1) := by simp [pickStep, hb]
            simp only [List.foldl_cons, h1, h2, h4, h3]
            rw [ih (P ++ [(p.1, s)]) s (some p.1)]
            simp
          · have h1 : scoreStep x (P, b, g) p = (P ++ [(p.1, s)], b, g) := by
              simp [scoreStep, hp, hb]
            have h3 : pickStep (b, g) (p.1, s) = (b, g) := by simp [pickStep, hb]
            simp only [List.foldl_cons, h1, h2, h4, h3]
            rw [ih (P ++ [(p.1, s)]) b g]
            simp

lemma scoreItem_eq {ι : Type} (models : List (String × (ι → Option RScore))) (x : ι) :
    scoreItem models x =
      (succList models x, (pickGo (succList models x) (RScore.ninf, none)).2) := by
  unfold scoreItem
  rw [scoreItem_go x models [] RScore.ninf none]
  simp

lemma recognize_go {ι : Type} (models : List (String × (ι → Option RScore))) :
    ∀ (items : List ι) (A : List (List (String × RScore))) (B : List (Option String)),
      items.foldl
        (fun acc x => (acc.1 ++ [(scoreItem models x).1], acc.2 ++ [(scoreItem models x).2]))
        (A, B) =
      (A ++ items.map (fun x => (scoreItem models x).1),
       B ++ items.map (fun x => (scoreItem models x).2)) := by
  intro items
  induction items with
  | nil => intro A B; simp
  | cons y l ih =>
      intro A B
      simp only [List.foldl_cons, List.map_cons]
      rw [ih]
      simp

lemma blt_ninf_false_iff {s : RScore} : blt RScore.ninf s = false ↔ s = RScore.ninf := by
  cases s <;> simp [blt]

lemma nodup_middle_not_mem {α : Type} (l1 l2 : List α) (a : α)
    (h : (l1 ++ a :: l2).Nodup) : a ∉ l1 ∧ a ∉ l2 := by
  rw [List.nodup_append] at h
  obtain ⟨h1, h2, h3⟩ := h
  rw [List.nodup_cons] at h2
  exact ⟨fun hm => (h3 hm) (List.mem_cons_self a l2), h2.1⟩

/-- C3: for every model map and every list of test items, `recognize` returns a
probabilities list and a guesses list both of the length of the test list, whose i-th
entries are the score map and the guess computed from the i-th test item (positional
correspondence with the iteration order of the test set); every guess is either a key
of the model map or the no-guess sentinel `none`; and every score map has at most as
many entries as the model map has categories, each keyed by a category of the model
map. -/
theorem recognize_shape_correspondence {ι : Type}
    (models : List (String × (ι → Option RScore))) (items : List ι) :
    recognize models items =
      (items.map (fun x => (scoreItem models x).1),
       items.map (fun x => (scoreItem models x).2))
    ∧ (recognize models items).1.length = items.length
    ∧ (recognize models items).2.length = items.length
    ∧ (∀ g ∈ (recognize models items).2, g = none ∨ ∃ p ∈ models, g = some p.1)
    ∧ (∀ pr ∈ (recognize models items).1,
        pr.length ≤ models.length ∧ ∀ ws ∈ pr, ∃ p ∈ models, ws.1 = p.1) := by
  have hrec : recognize models items =
      (items.map (fun x => (scoreItem models x).1),
       items.map (fun x => (scoreItem models x).2)) := by
    unfold recognize
    rw [recognize_go models items [] []]
    simp
  refine ⟨hrec, by rw [hrec]; simp, by rw [hrec]; simp, ?_, ?_⟩
  · rw [hrec]
    intro g hg
    simp only [List.mem_map] at hg
    obtain ⟨x, _, rfl⟩ := hg
    have hsi : (scoreItem models x).2 =
        (pickGo (succList models x) (RScore.ninf, none)).2 := by rw [scoreItem_eq]
    rw [hsi]
    rcases pickGo_guess_mem (succList models x) RScore.ninf none with h | ⟨ws, hm, h⟩
    · left; exact h
    · right
      obtain ⟨f, hmem, _⟩ := (succList_mem models x ws.1 ws.2).mp (by simpa using hm)
      exact ⟨(ws.1, f), hmem, by rw [h]⟩
  · rw [hrec]
    intro pr hpr
    simp only [List.mem_map] at hpr
    obtain ⟨x, _, rfl⟩ := hpr
    have hp1 : (scoreItem models x).1 = succList models x := by rw [scoreItem_eq]
    rw [hp1]
    constructor
    · exact List.length_filterMap_le _ _
    · intro ws hws
      obtain ⟨f, hmem, _⟩ := (succList_mem models x ws.1 ws.2).mp (by simpa using hws)
      exact ⟨(ws.1, f), hmem, rfl⟩

/-- C3 witness: the positional-correspondence part of `recognize_shape_correspondence`
at a concrete one-model map and a two-item test list. -/
theorem recognize_shape_correspondence_witness :
    recognize modelsW3 itemsW3 =
      (itemsW3.map (fun x => (scoreItem modelsW3 x).1),
       itemsW3.map (fun x => (scoreItem modelsW3 x).2)) :=
  (recognize_shape_correspondence modelsW3 itemsW3).1

/-- C7 counterexample: a model map whose single category scores the test item
successfully, with score negative infinity.  The category is recorded in the score map
(so at least one category scored the item successfully, and the arg-max category over
the score map is that category), yet the produced guess is the no-guess sentinel, not
the arg-max category: the claim's arg-max clause fails at this input. -/
theorem recognize_argmax_ninf_cex :
    scoreItem modelsC7 () = ([("A", RScore.ninf)], none) := rfl

/-- C7 (amended): for every test item, a category's score is recorded in the item's
score map exactly when that category's model scored the item successfully (failing
categories are omitted and never participate in the maximum); when a guess is produced
it is the arg-max category over the successful scores, ties broken by the
first-encountered category in the model map's iteration order, and its score is
strictly greater than negative infinity; the no-guess sentinel is produced exactly
when no successful score is strictly greater than negative infinity - in particular
when zero categories scored the item successfully. -/
theorem recognize_scoreItem_characterization {ι : Type}
    (models : List (String × (ι → Option RScore))) (x : ι) :
    (scoreItem models x).1 = succList models x
    ∧ (∀ w s, (w, s) ∈ (scoreItem models x).1 ↔ ∃ f, (w, f) ∈ models ∧ f x = some s)
    ∧ ((scoreItem models x).2 = none ↔
        ∀ p ∈ models, ∀ s, p.2 x = some s → s = RScore.ninf)
    ∧ (∀ w, (scoreItem models x).2 = some w →
        ∃ pre s post, succList models x = pre ++ (w, s) :: post ∧
          blt RScore.ninf s = true ∧ (∀ ws ∈ pre, blt ws.2 s = true) ∧
          (∀ ws ∈ post, blt s ws.2 = false)) := by
  have hp1 : (scoreItem models x).1 = succList models x := by rw [scoreItem_eq]
  have hp2 : (scoreItem models x).2 =
      (pickGo (succList models x) (RScore.ninf, none)).2 := by rw [scoreItem_eq]
  refine ⟨hp1, ?_, ?_, ?_⟩
  · intro w s
    rw [hp1]
    exact succList_mem models x w s
  · rw [hp2, pickGo_none_iff]
    constructor
    · intro h p hp s hps
      exact h (p.1, s) ((succList_mem models x p.1 s).mpr ⟨p.2, by simpa using hp, hps⟩)
    · intro h ws hws
      obtain ⟨f, hm, hfx⟩ := (succList_mem models x ws.1 ws.2).mp (by simpa using hws)
      exact h (ws.1, f) hm ws.2 hfx
  · intro w hw
    rw [hp2] at hw
    rcases pickGo_spec (succList models x) RScore.ninf none with ⟨heq, _⟩ |
      ⟨pre, w', s, post, hl, heq, hbs, hpre, hpost⟩
    · rw [heq] at hw; cases hw
    · rw [heq] at hw
      injection hw with hww
      subst hww
      exact ⟨pre, s, post, hl, hbs, hpre, hpost⟩

/-- C7 (amended) witness: the score-map part of the characterization at a concrete
model map with one failing and one succeeding category. -/
theorem recognize_scoreItem_characterization_witness :
    (scoreItem modelsW7 ()).1 = succList modelsW7 () :=
  (recognize_scoreItem_characterization modelsW7 ()).1

/-- C10: the no-guess sentinel is produced if and only if no successful score is
strictly greater than negative infinity; consequently a category whose model
successfully returns exactly negative infinity is recorded in the item's score map yet
can never become the guess (so the score map can be non-empty while the guess is the
sentinel). -/
theorem recognize_ninf_sentinel {ι : Type} (models : List (String × (ι → Option RScore)))
    (x : ι) (hnd : (models.map Prod.fst).Nodup) :
    ((scoreItem models x).2 = none ↔
      ∀ p ∈ models, ∀ s, p.2 x = some s → blt RScore.ninf s = false)
    ∧ (∀ w f, (w, f) ∈ models → f x = some RScore.ninf →
        (w, RScore.ninf) ∈ (scoreItem models x).1 ∧ (scoreItem models x).2 ≠ some w) := by
  have hp1 : (scoreItem models x).1 = succList models x := by rw [scoreItem_eq]
  have hp2 : (scoreItem models x).2 =
      (pickGo (succList models x) (RScore.ninf, none)).2 := by rw [scoreItem_eq]
  constructor
  · rw [hp2, pickGo_none_iff]
    constructor
    · intro h p hp s hps
      rw [blt_ninf_false_iff]
      exact h (p.1, s) ((succList_mem models x p.1 s).mpr ⟨p.2, by simpa using hp, hps⟩)
    · intro h ws hws
      obtain ⟨f, hm, hfx⟩ := (succList_mem models x ws.1 ws.2).mp (by simpa using hws)
      exact blt_ninf_false_iff.mp (h (ws.1, f) hm ws.2 hfx)
  · intro w f hm hfx
    have hmem : (w, RScore.ninf) ∈ succList models x :=
      (succList_mem models x w RScore.ninf).mpr ⟨f, hm, hfx⟩
    refine ⟨by rw [hp1]; exact hmem, ?_⟩
    intro hw
    rw [hp2] at hw
    rcases pickGo_spec (succList models x) RScore.ninf none with ⟨heq, _⟩ |
      ⟨pre, w', s, post, hl, heq, hbs, _, _⟩
    · rw [heq] at hw; cases hw
    · rw [heq] at hw
      injection hw with hww
      subst hww
      have hnodup : ((succList models x).map Prod.fst).Nodup :=
        hnd.sublist (succList_names_sublist models x)
      rw [hl, List.map_append, List.map_cons] at hnodup
      have hnm := nodup_middle_not_mem _ _ _ hnodup
      rw [hl] at hmem
      rcases List.mem_append.mp hmem with hpre2 | hq
      · exact hnm.1 (List.mem_map.mpr ⟨(w', RScore.ninf), hpre2, rfl⟩)
      · rcases List.mem_cons.mp hq with heq2 | hpost2
        · have hs : s = RScore.ninf := (congrArg Prod.snd heq2).symm
          rw [hs] at hbs
          rw [blt_irrefl] at hbs
          cases hbs
        · exact hnm.2 (List.mem_map.mpr ⟨(w', RScore.ninf), hpost2, rfl⟩)

/-- C10 witness: in a two-category map where the second category successfully scores
negative infinity, that category is recorded in the score map but is not the guess. -/
theorem recognize_ninf_sentinel_witness :
    ("B", RScore.ninf) ∈ (scoreItem modelsW10 ()).1 ∧
      (scoreItem modelsW10 ()).2 ≠ some "B" :=
  (recognize_ninf_sentinel modelsW10 () (by simp [modelsW10])).2 "B"
    (fun _ => some RScore.ninf) (by simp [modelsW10]) rfl

/-! Lemmas unfolding the selector candidates on the success path. -/

lemma bicCandidate_eq {M Data : Type} (env : HmmEnv M Data) (inp : SelectorInput Data)
    (n : ℕ) (m : M) (logl : ℚ) (htr : env.train inp.X n = some m)
    (hsc : env.scoreM m inp.X = some logl) (hrows : env.rows inp.X ≠ 0) :
    bicCandidate env inp n =
      some (-2 * logl +
        ((((n : ℤ) ^ 2 + (2 * (n : ℤ) * (env.dim inp.X : ℤ) - 1)) : ℤ) : ℚ) *
          env.log (env.rows inp.X)) := by
  unfold bicCandidate
  rw [htr]
  simp [hsc, hrows]

lemma dicCandidate_eq {M Data : Type} (env : HmmEnv M Data) (inp : SelectorInput Data)
    (n : ℕ) (m : M) (logl anti : ℚ) (htr : env.train inp.X n = some m)
    (hsc : env.scoreM m inp.X = some logl) (hanti : dicAnti env inp m = some anti)
    (hM : inp.hwords.length ≠ 1) :
    dicCandidate env inp n = some (logl - anti / ((inp.hwords.length : ℚ) - 1)) := by
  have hg : ¬ ((inp.hwords.length : ℤ) - 1 = 0) := by omega
  unfold dicCandidate
  rw [htr]
  simp [hsc, hanti, hg]

/-- C1: for every state count in the scanned range for which training and scoring
succeed (the data being non-empty, so that `math.log(len(self.X))` does not raise),
the BIC candidate score is `-2 logL + p log N` with `p = K^2 + 2 K D - 1` (D the
observation dimension) and `N` the total number of observation rows of the
concatenated array - not the number of sequences, which never enters the formula; and
the selector returns the trained model for the state count with the minimal candidate
score among the successful ones, ties won by the first-encountered (smaller) state
count. -/
theorem bic_select_minimizes {M Data : Type} (env : HmmEnv M Data)
    (inp : SelectorInput Data) (n : ℕ) (m : M) (logl : ℚ)
    (hn : n ∈ nRange inp) (hrows : env.rows inp.X ≠ 0)
    (htr : env.train inp.X n = some m) (hsc : env.scoreM m inp.X = some logl) :
    bicCandidate env inp n =
      some (-2 * logl +
        ((n : ℚ) ^ 2 + 2 * (n : ℚ) * (env.dim inp.X : ℚ) - 1) * env.log (env.rows inp.X))
    ∧ ∃ nb sb, nb ∈ nRange inp ∧ bicCandidate env inp nb = some sb ∧
        (∀ n' ∈ nRange inp, ∀ t, bicCandidate env inp n' = some t →
          sb ≤ t ∧ (sb = t → nb ≤ n')) ∧
        selectBIC env inp = env.train inp.X nb := by
  have hcand := bicCandidate_eq env inp n m logl htr hsc hrows
  constructor
  · rw [hcand]
    congr 1
    push_cast
    ring
  · rcases selFoldMin_spec (bicCandidate env inp) (nRange inp) (nRange_pairwise inp) with
      ⟨_, hall⟩ | ⟨sb, nb, heq, hnb, hcnb, hmin⟩
    · rw [hall n hn] at hcand; cases hcand
    · exact ⟨nb, sb, hnb, hcnb, hmin, by unfold selectBIC selectBICN; rw [heq]⟩

/-- C1 witness: the BIC candidate formula at a concrete environment where training and
scoring succeed for 2 states. -/
theorem bic_select_minimizes_witness :
    bicCandidate envW1 inpW1 2 =
      some (-2 * 37 +
        (((2 : ℕ) : ℚ) ^ 2 + 2 * ((2 : ℕ) : ℚ) * (envW1.dim inpW1.X : ℚ) - 1) *
          envW1.log (envW1.rows inpW1.X)) :=
  (bic_select_minimizes envW1 inpW1 2 () 37 (by decide) (by decide) rfl rfl).1

/-- C4: for every state count for which training and every scoring succeed, the DIC
candidate score is the log-likelihood on the own category's data minus the accumulated
log-likelihood over the other categories divided by (number of categories - 1), the
other categories being the words of the corpus different from the target; the selector
returns the trained model for the state count with the highest candidate score among
the successful ones. -/
theorem dic_select_maximizes {M Data : Type} (env : HmmEnv M Data)
    (inp : SelectorInput Data) (n : ℕ) (m : M) (logl anti : ℚ)
    (hn : n ∈ nRange inp) (htr : env.train inp.X n = some m)
    (hsc : env.scoreM m inp.X = some logl) (hanti : dicAnti env inp m = some anti)
    (hM : inp.hwords.length ≠ 1) :
    dicCandidate env inp n = some (logl - anti / ((inp.hwords.length : ℚ) - 1))
    ∧ dicOthers inp = inp.hwords.filter (fun p => p.1 ≠ inp.thisWord)
    ∧ ∃ nb sb, nb ∈ nRange inp ∧ dicCandidate env inp nb = some sb ∧
        (∀ n' ∈ nRange inp, ∀ t, dicCandidate env inp n' = some t →
          t ≤ sb ∧ (t = sb → nb ≤ n')) ∧
        selectDIC env inp = env.train inp.X nb := by
  have hcand := dicCandidate_eq env inp n m logl anti htr hsc hanti hM
  refine ⟨hcand, rfl, ?_⟩
  rcases selFoldMax_spec (dicCandidate env inp) (nRange inp) (nRange_pairwise inp) with
    ⟨_, hall⟩ | ⟨sb, nb, heq, hnb, hcnb, hmax⟩
  · rw [hall n hn] at hcand; cases hcand
  · exact ⟨nb, sb, hnb, hcnb, hmax, by unfold selectDIC selectDICN; rw [heq]⟩

/-- C4 witness: the DIC candidate formula at a concrete two-word corpus where the own
data scores 10 and the other word's data scores 4. -/
theorem dic_select_maximizes_witness :
    dicCandidate envW4 inpW4 2 = some (10 - 4 / ((inpW4.hwords.length : ℚ) - 1)) :=
  (dic_select_maximizes envW4 inpW4 2 () 10 4 (by decide) rfl rfl
    (by simp [dicAnti, dicOthers, envW4, inpW4]) (by decide)).1

/-- C5: when the corpus contains exactly one category, the division by
`len(self.hwords) - 1` raises `ZeroDivisionError` inside the `try` block for every
state count, so every candidate is discarded (no model is ever chosen through the
division), no error escapes `select`, and the selector falls back to
`base_model(0)` - the defined no-viable-model outcome, which is `none` whenever the
trainer honours the contract that fitting zero states fails. -/
theorem dic_single_category_no_division {M Data : Type} (env : HmmEnv M Data)
    (inp : SelectorInput Data) (h1 : inp.hwords.length = 1) :
    (∀ n, dicCandidate env inp n = none)
    ∧ selectDICN env inp = 0
    ∧ selectDIC env inp = env.train inp.X 0
    ∧ (env.train inp.X 0 = none → selectDIC env inp = none) := by
  have hall : ∀ n, dicCandidate env inp n = none := by
    intro n
    unfold dicCandidate
    cases htr : env.train inp.X n with
    | none => simp
    | some m =>
        cases hsc : env.scoreM m inp.X with
        | none => simp [hsc]
        | some logl =>
            cases ha : dicAnti env inp m with
            | none => simp [hsc, ha]
            | some anti =>
                have hg : ((inp.hwords.length : ℤ) - 1 = 0) := by omega
                simp [hsc, ha, hg]
  have hfold : selFoldMax (dicCandidate env inp) (nRange inp) = (none, 0) := by
    unfold selFoldMax
    exact foldl_selStepMax_of_none (dicCandidate env inp) (nRange inp) (none, 0)
      (fun n _ => hall n)
  refine ⟨hall, ?_, ?_, ?_⟩
  · unfold selectDICN; rw [hfold]
  · unfold selectDIC selectDICN; rw [hfold]
  · intro h0; unfold selectDIC selectDICN; rw [hfold]; exact h0

/-- C5 witness: a concrete one-word corpus whose trainer fails on zero states; every
DIC candidate is `none` and `select` returns `none`. -/
theorem dic_single_category_no_division_witness :
    inpW5.hwords.length = 1 ∧ dicCandidate envW5 inpW5 2 = none ∧
      selectDIC envW5 inpW5 = none := by
  have h := dic_single_category_no_division envW5 inpW5 (by decide)
  exact ⟨by decide, h.1 2, h.2.2.2 rfl⟩

/-- C6: the CV selector uses `min(3, number of sequences)` folds; when the category has
fewer than 2 sequences no fold split is performed - the candidate of each state count
ignores the fold input entirely and equals the log-likelihood, on the full concatenated
data, of a model trained on that same data - and the selector still returns the
trained model at the winning state count whenever that final training succeeds. -/
theorem cv_single_sequence_degenerate {M Data : Type} (env : HmmEnv M Data)
    (inp : SelectorInput Data) (sf : ℕ → List (Data × Data)) (hseq : inp.numSeqs < 2) :
    (∀ n s s', cvTry env inp s n = cvTry env inp s' n)
    ∧ (∀ n m q s, env.train inp.X n = some m → env.scoreM m inp.X = some q →
        cvCandidate env inp s n = q)
    ∧ (∀ m, env.train inp.X (selectCVN env inp sf) = some m →
        selectCV env inp sf = some m) := by
  have hf : min 3 inp.numSeqs < 2 := lt_of_le_of_lt (min_le_right _ _) hseq
  refine ⟨?_, ?_, ?_⟩
  · intro n s s'
    unfold cvTry
    rw [if_pos hf, if_pos hf]
  · intro n m q s htr hsc
    unfold cvCandidate cvTry
    rw [if_pos hf, htr]
    simp [hsc]
  · intro m htr
    unfold selectCV
    rw [htr]

/-- C6 witness: with one sequence the candidate for 2 states is the self-score 7 and a
model is returned. -/
theorem cv_single_sequence_degenerate_witness :
    inpW6.numSeqs < 2 ∧ cvCandidate envW6 inpW6 [] 2 = 7 ∧
      selectCV envW6 inpW6 sfW6 = some (selectCVN envW6 inpW6 sfW6) := by
  have h := cv_single_sequence_degenerate envW6 inpW6 sfW6 (by decide)
  exact ⟨by decide, h.2.1 2 2 7 [] rfl rfl, h.2.2 _ rfl⟩

/-- C2 (amended): a training or scoring failure on any (state count, fold) pair aborts
the evaluation of the remaining folds of that state count and discards the already
accumulated fold scores: that state count's candidate score is left at the initializer
0 (not negative infinity), and such a state count is selected whenever every other
candidate in the range scores strictly below 0. -/
theorem cv_fold_failure_yields_zero {M Data : Type} (env : HmmEnv M Data)
    (inp : SelectorInput Data) (sf : ℕ → List (Data × Data)) (n : ℕ)
    (hn : n ∈ nRange inp) (hfail : cvTry env inp (sf n) n = none)
    (hneg : ∀ n' ∈ nRange inp, n' ≠ n → cvCandidate env inp (sf n') n' < 0) :
    cvCandidate env inp (sf n) n = 0 ∧ selectCVN env inp sf = n := by
  have hzero : cvCandidate env inp (sf n) n = 0 := by
    unfold cvCandidate; rw [hfail]; rfl
  refine ⟨hzero, ?_⟩
  rcases selFoldMax_spec (fun k => some (cvCandidate env inp (sf k) k)) (nRange inp)
      (nRange_pairwise inp) with ⟨_, hall⟩ | ⟨sb, nb, heq, hnb, hcnb, hmax⟩
  · exact absurd (hall n hn) (by simp)
  · have hsb : cvCandidate env inp (sf nb) nb = sb := by simpa using hcnb
    have h0le : (0 : ℚ) ≤ sb := by
      have hc := hmax n hn (cvCandidate env inp (sf n) n) rfl
      rw [hzero] at hc
      exact hc.1
    have hnbn : nb = n := by
      by_contra hne
      have hlt := hneg nb hnb hne
      rw [hsb] at hlt
      linarith
    unfold selectCVN
    rw [heq]
    exact hnbn

/-- C8 (amended): the BIC and DIC selections are functions of the selector inputs
alone (in this embedding they take no further argument), and the CV selection is a
function of the inputs *and* the drawn fold partition: two runs whose partitions agree
on every scanned state count choose the same state count.  Because the shuffle is
unseeded, two runs need not agree on the partition, and the counterexample
accompanying this claim shows the chosen state count can then differ. -/
theorem cv_fixed_partition_deterministic {M Data : Type} (env : HmmEnv M Data)
    (inp : SelectorInput Data) (sf sf' : ℕ → List (Data × Data))
    (h : ∀ n ∈ nRange inp, sf n = sf' n) :
    selectCVN env inp sf = selectCVN env inp sf' := by
  unfold selectCVN selFoldMax
  rw [foldl_selStepMax_congr (fun n => some (cvCandidate env inp (sf n) n))
    (fun n => some (cvCandidate env inp (sf' n) n)) (nRange inp) (none, 0)
    (fun n hn => by
      show some (cvCandidate env inp (sf n) n) = some (cvCandidate env inp (sf' n) n)
      rw [h n hn])]

/-- C8 (amended) witness: two syntactically different partition functions that agree
on the scanned range yield the same chosen state count. -/
theorem cv_fixed_partition_deterministic_witness :
    selectCVN envC8 inpC8 sfW8 = selectCVN envC8 inpC8 sfW8' :=
  cv_fixed_partition_deterministic envC8 inpC8 sfW8 sfW8' (by decide)

/-- C9 (amended): for BIC and DIC, when no candidate in the range succeeds, `select`
returns `base_model(0)`, which is the `none` no-selection outcome whenever the trainer
honours the contract that fitting zero states fails; for CV the same conclusion holds
when training itself fails on all data.  (When training succeeds and only scoring
fails, the counterexample accompanying this claim shows CV returns a fitted model
instead of a no-selection outcome.) -/
theorem no_viable_model_fallback {M Data : Type} (env : HmmEnv M Data)
    (inp : SelectorInput Data) :
    ((env.train inp.X 0 = none ∧ ∀ n ∈ nRange inp, bicCandidate env inp n = none) →
      selectBIC env inp = none)
    ∧ ((env.train inp.X 0 = none ∧ ∀ n ∈ nRange inp, dicCandidate env inp n = none) →
      selectDIC env inp = none)
    ∧ ((∀ d n, env.train d n = none) → ∀ sf, selectCV env inp sf = none) := by
  refine ⟨?_, ?_, ?_⟩
  · rintro ⟨h0, hall⟩
    unfold selectBIC selectBICN selFoldMin
    rw [foldl_selStepMin_of_none (bicCandidate env inp) (nRange inp) (none, 0) hall]
    exact h0
  · rintro ⟨h0, hall⟩
    unfold selectDIC selectDICN selFoldMax
    rw [foldl_selStepMax_of_none (dicCandidate env inp) (nRange inp) (none, 0) hall]
    exact h0
  · intro ht sf
    unfold selectCV
    exact ht _ _

/-- C9 (amended) witness: with a trainer that always fails, all three selectors return
the `none` no-selection outcome. -/
theorem no_viable_model_fallback_witness :
    selectBIC envW9 inpW9 = none ∧ selectDIC envW9 inpW9 = none ∧
      selectCV envW9 inpW9 (fun _ => []) = none := by
  have h := no_viable_model_fallback envW9 inpW9
  refine ⟨h.1 ⟨rfl, ?_⟩, h.2.1 ⟨rfl, ?_⟩, h.2.2 (fun _ _ => rfl) _⟩
  · intro n _
    simp [bicCandidate, envW9]
  · intro n _
    simp [dicCandidate, envW9]

/-- C2 counterexample: with 3 sequences (3 folds) and range 2..4, training fails for 3
states on every fold (tags 1, 3, 5) and for 4 states on the second fold only.  The
candidate of 4 states is 0, not an average involving the first fold's successful score
-9 (the accumulated score was discarded); the candidate of 3 states, whose every fold
fails, is 0 - not the negative-infinity sentinel - and 3 states is selected over 2
states, whose three folds all succeeded with average -9.  The claim's assertion that
such a state count can never win is false at this input. -/
theorem cv_fold_failure_discards_scores_cex :
    cvCandidate envC2 inpC2 (sfC2 2) 2 = -9
    ∧ envC2.train 1 3 = none ∧ envC2.train 3 3 = none ∧ envC2.train 5 3 = none
    ∧ cvCandidate envC2 inpC2 (sfC2 3) 3 = 0
    ∧ envC2.train 1 4 = some 4 ∧ envC2.train 3 4 = none
    ∧ cvCandidate envC2 inpC2 (sfC2 4) 4 = 0
    ∧ selectCVN envC2 inpC2 sfC2 = 3
    ∧ selectCV envC2 inpC2 sfC2 = some 3 := by
  have h2 : cvCandidate envC2 inpC2 (sfC2 2) 2 = -9 := by
    norm_num [cvCandidate, cvTry, envC2, inpC2, sfC2, List.foldlM, min_self]
  have h3 : cvCandidate envC2 inpC2 (sfC2 3) 3 = 0 := by
    norm_num [cvCandidate, cvTry, envC2, inpC2, sfC2, List.foldlM, min_self]
  have h4 : cvCandidate envC2 inpC2 (sfC2 4) 4 = 0 := by
    norm_num [cvCandidate, cvTry, envC2, inpC2, sfC2, List.foldlM, min_self]
  have hr : nRange inpC2 = [2, 3, 4] := rfl
  have hn : selectCVN envC2 inpC2 sfC2 = 3 := by
    unfold selectCVN selFoldMax
    rw [hr]
    simp only [List.foldl_cons, List.foldl_nil, selStepMax, h2, h3, h4]
    norm_num
  refine ⟨h2, by decide, by decide, by decide, h3, by decide, by decide, h4, hn, ?_⟩
  unfold selectCV
  rw [hn]
  decide

/-- C2 (amended) witness: training fails for 2 states on every fold while 3 states
averages -9; the candidate of 2 states is 0 and 2 states is selected. -/
theorem cv_fold_failure_yields_zero_witness :
    cvTry envW2 inpW2 (sfW2 2) 2 = none ∧ cvCandidate envW2 inpW2 (sfW2 2) 2 = 0 ∧
      selectCVN envW2 inpW2 sfW2 = 2 := by
  have hfail : cvTry envW2 inpW2 (sfW2 2) 2 = none := by
    norm_num [cvTry, envW2, inpW2, sfW2, List.foldlM, min_self]
  have hneg : ∀ n' ∈ nRange inpW2, n' ≠ 2 → cvCandidate envW2 inpW2 (sfW2 n') n' < 0 := by
    intro n' hn' hne
    have hn2 : n' = 2 ∨ n' = 3 := by
      have hb : 2 ≤ n' ∧ n' < 4 := by simpa [nRange, inpW2] using hn'
      omega
    rcases hn2 with rfl | rfl
    · exact absurd rfl hne
    · norm_num [cvCandidate, cvTry, envW2, inpW2, sfW2, List.foldlM, min_self]
  have h := cv_fold_failure_yields_zero envW2 inpW2 sfW2 2 (by decide) hfail hneg
  exact ⟨hfail, h.1, h.2⟩

/-- C8 counterexample: identical selector inputs and seed, two draws of the unseeded
fold shuffle; under the first draw the chosen state count is 2, under the second it is
3, so selection is not a function of the inputs and configured seed alone. -/
theorem cv_partition_dependence_cex :
    selectCVN envC8 inpC8 sfC8A = 2 ∧ selectCVN envC8 inpC8 sfC8B = 3 := by
  have hA2 : cvCandidate envC8 inpC8 (sfC8A 2) 2 = 5 := by
    norm_num [cvCandidate, cvTry, envC8, inpC8, sfC8A, List.foldlM, min_self]
  have hA3 : cvCandidate envC8 inpC8 (sfC8A 3) 3 = 1 := by
    norm_num [cvCandidate, cvTry, envC8, inpC8, sfC8A, List.foldlM, min_self]
  have hB2 : cvCandidate envC8 inpC8 (sfC8B 2) 2 = 1 := by
    norm_num [cvCandidate, cvTry, envC8, inpC8, sfC8B, List.foldlM, min_self]
  have hB3 : cvCandidate envC8 inpC8 (sfC8B 3) 3 = 5 := by
    norm_num [cvCandidate, cvTry, envC8, inpC8, sfC8B, List.foldlM, min_self]
  have hr : nRange inpC8 = [2, 3] := rfl
  constructor
  · unfold selectCVN selFoldMax
    rw [hr]
    simp only [List.foldl_cons, List.foldl_nil, selStepMax, hA2, hA3]
    norm_num
  · unfold selectCVN selFoldMax
    rw [hr]
    simp only [List.foldl_cons, List.foldl_nil, selStepMax, hB2, hB3]
    norm_num

/-- C9 counterexample: training succeeds for every positive state count (and fails at
the zero-state fallback, honouring the trainer contract) while every scoring raises,
so no candidate state count produces a successful training-and-scoring pair; yet the
CV selector returns a fitted model (the one retrained at the first state count of the
range), not a no-selection outcome.  The claim's guarantee is false for the CV
strategy at this input. -/
theorem cv_scoring_failure_returns_model_cex :
    cvTry envC9 inpC9 (sfC9 2) 2 = none ∧ cvTry envC9 inpC9 (sfC9 3) 3 = none
    ∧ envC9.train inpC9.X 0 = none ∧ selectCV envC9 inpC9 sfC9 = some 2 := by
  have h2 : cvTry envC9 inpC9 (sfC9 2) 2 = none := by
    norm_num [cvTry, envC9, inpC9, sfC9, List.foldlM, min_self]
  have h3 : cvTry envC9 inpC9 (sfC9 3) 3 = none := by
    norm_num [cvTry, envC9, inpC9, sfC9, List.foldlM, min_self]
  have hc2 : cvCandidate envC9 inpC9 (sfC9 2) 2 = 0 := by
    unfold cvCandidate; rw [h2]; rfl
  have hc3 : cvCandidate envC9 inpC9 (sfC9 3) 3 = 0 := by
    unfold cvCandidate; rw [h3]; rfl
  have hr : nRange inpC9 = [2, 3] := rfl
  have hn : selectCVN envC9 inpC9 sfC9 = 2 := by
    unfold selectCVN selFoldMax
    rw [hr]
    simp only [List.foldl_cons, List.foldl_nil, selStepMax, hc2, hc3]
    norm_num
  refine ⟨h2, h3, by decide, ?_⟩
  unfold selectCV
  rw [hn]
  decide
